import Mathlib

/-!
Verification of the evergreen commit-queue subsystem.

Definitions are shallow embeddings of the Go source:
* the GitHub comment parser comes from `src/rest/model/commit_queue.go`
  (`ParseGitHubComment`, `parseFirstLine`);
* `VersionExistsForCommitQueueItem` comes from `src/unnamed/part_002`;
* the commit-queue document operations (`SetProcessing`, `Enqueue`,
  `EnqueueAtFront`, `Next`, `FindItem`, `Remove`, `ClearAllCommitQueues`,
  `TriggersCommitQueue`, `preventMergeForItem`) live in a file that is not in
  the source snapshot (only its test, `src/model/commitqueue/commit_queue_test.go`,
  is); they are modelled from the spec, constrained by that test.
-/

namespace Evergreen

/-! ### Character classes of the Go regexp engine (RE2, ASCII Perl classes) -/

/-- Embeds RE2's character class `\w`, namely `[0-9A-Za-z_]` (ASCII only). -/
def isGoWordChar (c : Char) : Bool :=
  (('0' ≤ c && c ≤ '9') || ('A' ≤ c && c ≤ 'Z') || ('a' ≤ c && c ≤ 'z') || c = '_')

/-- Embeds RE2's character class `\d`, namely `[0-9]`. -/
def isGoDigit (c : Char) : Bool :=
  ('0' ≤ c && c ≤ '9')

/-- Embeds RE2's character class `\s`, namely `[\t\n\f\r ]`. -/
def isGoSpace (c : Char) : Bool :=
  (c = '\t' || c = '\n' || c = '\x0c' || c = '\r' || c = ' ')

/-! ### The module-flag regexp

`parseFirstLine` (src/rest/model/commit_queue.go:123-138) scans the first line
with the Go regexp `(?:--module|-m)\s+(\w+):(\d+)` via `FindAllStringSubmatch`,
i.e. leftmost, non-overlapping matches, each contributing the captured
`(name, issue)` pair. The alternation, the greedy `\s+`/`\w+`/`\d+` runs and
the literal `:` are embedded directly: greediness is semantically forced here
because no character can belong to two consecutive pieces of the pattern
(whitespace is not a word character, `:` is neither, digits end the match). -/

/-- Matches the alternation `(?:--module|-m)` at the head of `s`, returning the
rest of the input after the flag. RE2 alternation is leftmost-first, so the
long form is tried first; whenever `--module` is a prefix, `-m` is not, so the
order cannot change the result. -/
def matchFlag (s : List Char) : Option (List Char) :=
  if List.isPrefixOf ("--module".toList) s then some (s.drop 8)
  else if List.isPrefixOf ("-m".toList) s then some (s.drop 2)
  else none

/-- Matches the whole pattern `(?:--module|-m)\s+(\w+):(\d+)` at the head of
`s`; on success returns the two capture groups and the input remaining after
the match: after the flag, the greedy whitespace run (`\s+`, non-empty), the
greedy word run (`\w+`, non-empty, the name), a literal `:`, and the greedy
digit run (`\d+`, non-empty, the issue). -/
def matchModuleAt (s : List Char) : Option (String × String × List Char) :=
  match matchFlag s with
  | none => none
  | some s1 =>
    if (s1.takeWhile isGoSpace).isEmpty then none
    else if ((s1.dropWhile isGoSpace).takeWhile isGoWordChar).isEmpty then none
    else
      match (s1.dropWhile isGoSpace).dropWhile isGoWordChar with
      | ':' :: s3 =>
        if (s3.takeWhile isGoDigit).isEmpty then none
        else some (((s1.dropWhile isGoSpace).takeWhile isGoWordChar).asString,
          (s3.takeWhile isGoDigit).asString, s3.dropWhile isGoDigit)
      | _ => none

/-- Embeds `FindAllStringSubmatch(moduleRegex, line, -1)`: scan left to right;
at each position try the pattern; on a match emit the capture groups and
resume after the matched text (non-overlapping), otherwise advance one
character. The fuel argument bounds the number of scan steps; every step
consumes at least one character, so fuel equal to the input length is enough. -/
def findModulesGo : Nat → List Char → List (String × String)
  | 0, _ => []
  | _, [] => []
  | Nat.succ n, c :: rest =>
    match matchModuleAt (c :: rest) with
    | some (name, issue, rest2) => (name, issue) :: findModulesGo n rest2
    | none => findModulesGo n rest

/-- All matches of the module-flag pattern in `s`, leftmost first. -/
def findModules (s : List Char) : List (String × String) :=
  findModulesGo s.length s

/-! ### The parser data model (src/rest/model/commit_queue.go:99-102, 28-31) -/

/-- Embeds `APIModule` (only the two fields the parser produces). -/
structure APIModule where
  Module : String
  Issue : String
deriving DecidableEq, Repr

/-- Embeds `GithubCommentCqData`. -/
structure GithubCommentCqData where
  Modules : List APIModule
  MessageOverride : String
deriving DecidableEq, Repr

/-- Embeds `parseFirstLine` (src/rest/model/commit_queue.go:123-138): collect
every match of the module regexp on the line into `Modules`;
`MessageOverride` is left empty. -/
def parseFirstLine (comment : String) : GithubCommentCqData :=
  { Modules := (findModules comment.toList).map
      (fun p => { Module := p.1, Issue := p.2 }),
    MessageOverride := "" }

/-- The negated character class of the regexp atom `.`, which in RE2 matches
any character except `\n`. -/
def notNewline (c : Char) : Bool := !(c = '\n')

/-- The character class of the regexp atom `\n`. -/
def isNewline (c : Char) : Bool := (c = '\n')

/-- Embeds `ParseGitHubComment` (src/rest/model/commit_queue.go:104-121).
The Go code runs `lineRegex := (\A.*)(?:\n*)([\S\s]*)` with
`FindAllStringSubmatch`; with the `\A` anchor and all quantifiers greedy this
always produces exactly one match whose group 1 is the longest newline-free
prefix (`.` excludes `\n`), whose discarded middle is the maximal run of
newlines that follows, and whose group 2 is everything after that run. The
code then sets `data := parseFirstLine(group1)` and
`data.MessageOverride := group2`. -/
def ParseGitHubComment (comment : String) : GithubCommentCqData :=
  let cs := comment.toList
  let group1 := cs.takeWhile notNewline
  let group2 := (cs.dropWhile notNewline).dropWhile isNewline
  let data := parseFirstLine group1.asString
  { data with MessageOverride := group2.asString }

/-- Written from the claim's words, for comparison with the code: the part of
the comment after the first line break, verbatim, or the empty string when
there is nothing after the first line. -/
def remainderAfterFirstBreak (comment : String) : String :=
  match comment.toList.dropWhile notNewline with
  | [] => ""
  | _ :: t => t.asString

/-- Removes the maximal run of leading newline characters. -/
def stripLeadingNewlines (s : String) : String :=
  (s.toList.dropWhile isNewline).asString

/-- Written from the claim's words: `occ` is an occurrence of the module-flag
shape `--module <name>:<issue>` or `-m <name>:<issue>`, where the flag and
the name are separated by whitespace (the regexp's `\s+`), `name` is a
non-empty run of word characters and `issue` a non-empty run of digits. -/
def ModuleFlagShape (occ name issue : List Char) : Prop :=
  ∃ flag ws, (flag = "--module".toList ∨ flag = "-m".toList)
    ∧ occ = flag ++ ws ++ name ++ ':' :: issue
    ∧ ws ≠ [] ∧ (∀ c ∈ ws, isGoSpace c = true)
    ∧ name ≠ [] ∧ (∀ c ∈ name, isGoWordChar c = true)
    ∧ issue ≠ [] ∧ (∀ c ∈ issue, isGoDigit c = true)

/-- Written from the claim's words: the line decomposes, left to right, into
skipped characters and non-overlapping occurrences of the module-flag shape,
with one `{Module, Issue}` entry per occurrence, in order of appearance;
skipped (non-matching) text contributes nothing. -/
inductive ModulesOfLine : List Char → List APIModule → Prop
  | nil : ModulesOfLine [] []
  | skip (c : Char) {s : List Char} {ms : List APIModule} :
      ModulesOfLine s ms → ModulesOfLine (c :: s) ms
  | found {occ name issue rest : List Char} {ms : List APIModule} :
      ModuleFlagShape occ name issue → ModulesOfLine rest ms →
      ModulesOfLine (occ ++ rest)
        ({ Module := name.asString, Issue := issue.asString } :: ms)

/-! ### Commit-queue data model

Modelled from the spec: one document per project with fields `ProjectID`,
`Queue` (ordered items) and `Processing`; items carry `Issue`, `Version`,
`EnqueueTime`, `Modules` and `MessageOverride` (timestamps are abstracted to
naturals). The implementation file is absent from the snapshot; shapes follow
the spec's data-model section and the fields exercised by
`src/model/commitqueue/commit_queue_test.go`. -/

/-- Modelled from the spec: a per-module override commit `{Module, Issue}`. -/
structure Module where
  Module : String
  Issue : String
deriving DecidableEq, Repr

/-- Modelled from the spec: one enqueued change request. -/
structure CommitQueueItem where
  Issue : String
  Version : String
  EnqueueTime : Nat
  Modules : List Module
  MessageOverride : String
deriving DecidableEq, Repr

/-- The zero value of `CommitQueueItem`, returned by `Next` on an empty
queue. -/
def emptyItem : CommitQueueItem :=
  { Issue := "", Version := "", EnqueueTime := 0, Modules := [], MessageOverride := "" }

/-- Modelled from the spec: the per-project queue document. -/
structure CommitQueue where
  ProjectID : String
  Queue : List CommitQueueItem
  Processing : Bool
deriving DecidableEq, Repr

/-- Modelled from the spec and the repository's test: `SetProcessing(true)` is
the conditional update that fails (returning an error, producing no new
document) when `Processing` is already true — the mutual-exclusion gate —
while `SetProcessing(false)` always succeeds. The spec's prose makes both
directions conditional, but `TestProcessing`
(src/model/commitqueue/commit_queue_test.go:183-184) requires a second
consecutive `SetProcessing(false)` to succeed right after line 182 showed a
failed conditional update surfaces as an error, so only the true-transition
is conditional in the program. -/
def SetProcessing (cq : CommitQueue) (b : Bool) : Except String CommitQueue :=
  if b && cq.Processing then
    Except.error ("commit queue is already processing")
  else Except.ok { cq with Processing := b }

/-- Modelled from the spec: `Enqueue` stamps `EnqueueTime`, appends at the
tail and returns the zero-based position of the new item. -/
def Enqueue (now : Nat) (cq : CommitQueue) (item : CommitQueueItem) :
    CommitQueue × Nat :=
  let item := { item with EnqueueTime := now }
  ({ cq with Queue := cq.Queue ++ [item] }, cq.Queue.length)

/-- Modelled from the spec: `EnqueueAtFront` stamps `EnqueueTime` and inserts
at index 1 when the queue is non-empty (the head, which may already be
processing, stays at index 0) and at index 0 when it is empty, returning the
resulting index. -/
def EnqueueAtFront (now : Nat) (cq : CommitQueue) (item : CommitQueueItem) :
    CommitQueue × Nat :=
  let item := { item with EnqueueTime := now }
  match cq.Queue with
  | [] => ({ cq with Queue := [item] }, 0)
  | head :: rest => ({ cq with Queue := head :: item :: rest }, 1)

/-- Modelled from the spec: `Next` returns the item at index 0 with
`valid = true` when the queue is non-empty, else the zero-value item with
`valid = false`; it is a pure read. -/
def Next (cq : CommitQueue) : CommitQueueItem × Bool :=
  match cq.Queue with
  | [] => (emptyItem, false)
  | i :: _ => (i, true)

/-- Linear scan for the zero-based index of the first item carrying the given
issue. -/
def findIssueIdx (issue : String) : List CommitQueueItem → Option Nat
  | [] => none
  | i :: rest =>
    if i.Issue == issue then some 0
    else (findIssueIdx issue rest).map (fun n => n + 1)

/-- Modelled from the spec: `FindItem` is a linear scan for the first item
with the given issue, `-1` when absent. -/
def FindItem (cq : CommitQueue) (issue : String) : Int :=
  match findIssueIdx issue cq.Queue with
  | some n => (n : Int)
  | none => -1

/-- Modelled from the spec: `Remove` locates the item by issue; when absent it
returns `found = false` (not an error — concurrent evictors must be able to
race idempotently); when present it pulls the item out, and when the removed
item was the head it also resets `Processing` to `false`. Store-level
persistence errors are outside the pure model, so the Go `error` result
(always `nil` on these paths) is omitted. -/
def Remove (cq : CommitQueue) (issue : String) : CommitQueue × Bool :=
  match findIssueIdx issue cq.Queue with
  | none => (cq, false)
  | some n =>
    ({ cq with
        Queue := cq.Queue.eraseIdx n,
        Processing := if n = 0 then false else cq.Processing }, true)

/-- Modelled from the spec: `ClearAllCommitQueues` clears the contents of
every project queue whose `Queue` is non-empty and returns how many queues
were non-trivially cleared; queues already empty are not counted. The store's
collection of documents is modelled as a list of queues. -/
def ClearAllCommitQueues : List CommitQueue → List CommitQueue × Nat
  | [] => ([], 0)
  | q :: rest =>
    let cleared := ClearAllCommitQueues rest
    if q.Queue.isEmpty then (q :: cleared.1, cleared.2)
    else ({ q with Queue := [] } :: cleared.1, cleared.2 + 1)

/-- Case-sensitive substring containment on character lists (Go's
`strings.Contains`): some split of `s` has `pat` as a prefix. -/
def hasSubstr (pat : List Char) : List Char → Bool
  | [] => pat.isEmpty
  | c :: rest => (List.isPrefixOf pat (c :: rest)) || hasSubstr pat rest

/-- Modelled from the spec: `TriggersCommitQueue` classifies a comment event
as an enqueue request iff its action is `"created"` and the body contains the
configured trigger phrase as a case-sensitive substring. The phrase constant
(`triggerComment`) is not in the snapshot, so it is passed as the first
argument. -/
def TriggersCommitQueue (triggerComment action comment : String) : Bool :=
  action == "created" && hasSubstr triggerComment.toList comment.toList

/-! ### Merge gate / eviction controller

Modelled from the spec, constrained by `TestPreventMergeForItemPR`,
`TestPreventMergeForItemCLI` and `TestClearVersionPatchSubscriber` in
`src/model/commitqueue/commit_queue_test.go`. The external collaborators
(subscription registry, task and build registries) are modelled as lists of
documents inside one state record. -/

/-- The patch-source constant for pull-request items. The constant's value is
not in the snapshot; only its distinctness from `CLIPatchType` matters. -/
def PRPatchType : String := "PR"

/-- The patch-source constant for CLI-patch items. -/
def CLIPatchType : String := "CLI"

/-- The subscriber-type constant for pending GitHub merges. -/
def GithubMergeSubscriberType : String := "github-merge"

/-- The subscriber-type constant for commit-queue dequeue notifications. -/
def CommitQueueDequeueSubscriberType : String := "commit-queue-dequeue"

/-- A patch-outcome subscription, keyed by the patch/version id it selects and
the subscriber type. -/
structure Subscription where
  ResourceID : String
  SubscriberType : String
deriving DecidableEq, Repr

/-- The slice of a task document the merge gate touches. -/
structure TaskDoc where
  Id : String
  Priority : Int
  BuildId : String
  Version : String
  CommitQueueMerge : Bool
deriving DecidableEq, Repr

/-- One entry of a build's task cache. -/
structure BuildTaskCache where
  Id : String
  Activated : Bool
deriving DecidableEq, Repr

/-- The slice of a build document the merge gate touches. -/
structure Build where
  Id : String
  Tasks : List BuildTaskCache
deriving DecidableEq, Repr

/-- The external documents the eviction compensations read and write. -/
structure MergeState where
  subscriptions : List Subscription
  tasks : List TaskDoc
  builds : List Build
deriving DecidableEq, Repr

/-- Modelled from the spec: `clearVersionPatchSubscriber` deletes every
patch-outcome subscription selecting the given patch id with the given
subscriber type (test: `TestClearVersionPatchSubscriber`). -/
def clearVersionPatchSubscriber (patchID subscriberType : String)
    (st : MergeState) : MergeState :=
  let keep : Subscription → Bool :=
    fun s => !(s.ResourceID == patchID && s.SubscriberType == subscriberType)
  { st with subscriptions := st.subscriptions.filter keep }

/-- The first merge task for the given version
(`task.FindMergeTaskForVersion`). -/
def findMergeTaskForVersion (st : MergeState) (version : String) : Option TaskDoc :=
  st.tasks.find? (fun t => t.Version == version && t.CommitQueueMerge)

/-- Modelled from the spec: setting a merge task's priority to `-1` also
deactivates the task's entry in its containing build's task cache (test:
after the CLI compensations, `mergeBuild.Tasks[0].Activated` is false). -/
def setTaskPriorityBlocked (taskId buildId : String) (st : MergeState) :
    MergeState :=
  let blockTask : TaskDoc → TaskDoc :=
    fun t => if t.Id == taskId then { t with Priority := -1 } else t
  let deactivateCache : BuildTaskCache → BuildTaskCache :=
    fun c => if c.Id == taskId then { c with Activated := false } else c
  let deactivateBuild : Build → Build :=
    fun b => if b.Id == buildId then { b with Tasks := b.Tasks.map deactivateCache } else b
  { st with
      tasks := st.tasks.map blockTask,
      builds := st.builds.map deactivateBuild }

/-- Modelled from the spec: `preventMergeForItem` runs the eviction
compensations for one item. For a PR item with a version, the pending
GitHub-merge subscription for that version is deleted. For a CLI item the
spec's prose says the dequeue-subscriber is cleared even when no version
exists, but the repository's own test (`TestPreventMergeForItemCLI`, the
`versionExists = false` call) requires the subscription to remain and the
merge task's priority to stay untouched, so the model follows the test: the
CLI compensations (clear the dequeue-subscriber, force the merge task's
priority to `-1`, deactivate its build-cache entry) run only when a version
exists. -/
def preventMergeForItem (patchType : String) (versionExists : Bool)
    (item : CommitQueueItem) (st : MergeState) : MergeState :=
  if patchType == PRPatchType then
    if item.Version == "" then st
    else clearVersionPatchSubscriber item.Version GithubMergeSubscriberType st
  else if patchType == CLIPatchType then
    if versionExists then
      let st1 :=
        match findMergeTaskForVersion st item.Issue with
        | some t => setTaskPriorityBlocked t.Id t.BuildId st
        | none => st
      clearVersionPatchSubscriber item.Issue CommitQueueDequeueSubscriberType st1
    else st
  else st

/-! ### Version lookup for commit-queue items (src/unnamed/part_002:576-592) -/

/-- The slice of a version document this development needs: only existence of
the document with a given id matters. -/
structure Version where
  Id : String
deriving DecidableEq, Repr

/-- Embeds `VersionExistsForCommitQueueItem` (src/unnamed/part_002:576-592).
The store lookup `VersionFindOneId` is abstracted as `findVersion`, which may
fail (error) or return the document when one exists. For `PRPatchType` items
the queue head is consulted first: when the queue is empty or the given issue
is not the head's issue the function returns `(false, nil)` without any store
lookup, and otherwise looks up the head's `Version`; for every other patch
type the issue string itself is the version id. -/
def VersionExistsForCommitQueueItem
    (findVersion : String → Except String (Option Version))
    (cq : CommitQueue) (issue patchType : String) : Except String Bool :=
  let lookFor : String → Except String Bool := fun versionID =>
    match findVersion versionID with
    | Except.error e => Except.error e
    | Except.ok v => Except.ok v.isSome
  if patchType == PRPatchType then
    let hv := Next cq
    if !hv.2 || !(hv.1.Issue == issue) then Except.ok false
    else lookFor hv.1.Version
  else lookFor issue

/-! ### Concrete documents, mirroring the fixtures of
`src/model/commitqueue/commit_queue_test.go` -/

/-- An item with the given issue and all other fields at their zero values. -/
def itm (issue : String) : CommitQueueItem :=
  { Issue := issue, Version := "", EnqueueTime := 0, Modules := [], MessageOverride := "" }

/-- The merge task of `TestPreventMergeForItemCLI`: id `t1`, default priority,
in build `b1`, for version `abcdef012345`. -/
def tMerge : TaskDoc :=
  { Id := "t1", Priority := 0, BuildId := "b1", Version := "abcdef012345",
    CommitQueueMerge := true }

/-- The external state of `TestPreventMergeForItemCLI`: one dequeue
subscription for the patch, the merge task, and its activated build. -/
def stCLI : MergeState :=
  { subscriptions := [{ ResourceID := "abcdef012345",
                        SubscriberType := CommitQueueDequeueSubscriberType }],
    tasks := [tMerge],
    builds := [{ Id := "b1", Tasks := [{ Id := "t1", Activated := true }] }] }

/-- A version store holding exactly the document `v1`, never failing. -/
def fv0 : String → Except String (Option Version) :=
  fun id => if id == "v1" then Except.ok (some { Id := "v1" }) else Except.ok none

/-- A queue whose head item `c123` has version `v1`. -/
def cqPR : CommitQueue :=
  { ProjectID := "mci", Queue := [{ itm ("c123") with Version := "v1" }],
    Processing := false }

/-! ## Helper lemmas -/

theorem toList_asString (l : List Char) : (l.asString).toList = l := rfl

theorem data_asString (l : List Char) : (l.asString).data = l := rfl

theorem isPrefixOf_iff_append (p : List Char) :
    ∀ l, List.isPrefixOf p l = true ↔ ∃ t, l = p ++ t := by
  induction p with
  | nil => intro l; simp [List.isPrefixOf]
  | cons a as ih =>
    intro l
    cases l with
    | nil => simp [List.isPrefixOf]
    | cons b bs =>
      simp only [List.isPrefixOf, Bool.and_eq_true, beq_iff_eq, ih bs,
        List.cons_append, List.cons.injEq]
      constructor
      · rintro ⟨rfl, t, rfl⟩; exact ⟨t, rfl, rfl⟩
      · rintro ⟨t, h1, h2⟩; exact ⟨h1.symm, t, h2⟩

theorem hasSubstr_iff_append (pat : List Char) :
    ∀ s, hasSubstr pat s = true ↔ ∃ pre post, s = pre ++ pat ++ post := by
  intro s
  induction s with
  | nil =>
    simp only [hasSubstr, List.isEmpty_iff]
    constructor
    · rintro rfl; exact ⟨[], [], rfl⟩
    · rintro ⟨pre, post, h⟩
      rcases List.append_eq_nil.mp h.symm with ⟨h1, h2⟩
      exact (List.append_eq_nil.mp h1).2
  | cons c rest ih =>
    simp only [hasSubstr, Bool.or_eq_true, isPrefixOf_iff_append, ih]
    constructor
    · rintro (⟨t, ht⟩ | ⟨pre, post, h⟩)
      · exact ⟨[], t, by simpa using ht⟩
      · exact ⟨c :: pre, post, by simp [h]⟩
    · rintro ⟨pre, post, h⟩
      cases pre with
      | nil => exact Or.inl ⟨post, by simpa using h⟩
      | cons d pre2 =>
        simp only [List.cons_append, List.cons.injEq] at h
        exact Or.inr ⟨pre2, post, h.2⟩

theorem dropWhile_head_false (p : Char → Bool) (l : List Char) {c : Char}
    {t : List Char} (h : l.dropWhile p = c :: t) : p c = false := by
  have hh := List.head?_dropWhile_not p l
  rw [h] at hh
  simpa using hh

/-! ## C7: the message override -/

/-- Claim C7, counterexample: for the comment `"a\n\nb"` the claim says the
`MessageOverride` is everything after the first line break, namely `"\nb"`,
but the regexp's `(?:\n*)` consumes the whole newline run, so the code
produces `"b"`. -/
theorem claim_C7_counterexample :
    ¬ ((ParseGitHubComment ("a\n\nb")).MessageOverride =
        remainderAfterFirstBreak ("a\n\nb")) := by decide

/-- Claim C7 (amended): for every input comment, `ParseGitHubComment` sets
`MessageOverride` to everything after the first line break with the maximal
run of leading newline characters stripped (verbatim after that, including
interior newlines), or to the empty string when nothing remains. -/
theorem claim_C7_amended (comment : String) :
    (ParseGitHubComment comment).MessageOverride =
      stripLeadingNewlines (remainderAfterFirstBreak comment) := by
  unfold ParseGitHubComment remainderAfterFirstBreak stripLeadingNewlines
  show ((comment.toList.dropWhile notNewline).dropWhile isNewline).asString = _
  cases hd : comment.toList.dropWhile notNewline with
  | nil => rfl
  | cons c t =>
    have hc : notNewline c = false := dropWhile_head_false notNewline comment.toList hd
    have hc' : isNewline c = true := by
      unfold notNewline at hc
      unfold isNewline
      simpa using hc
    simp [List.dropWhile_cons, hc', toList_asString, data_asString]

/-! ## C8: module parsing -/

theorem length_dropWhile_le' (p : Char → Bool) (l : List Char) :
    (l.dropWhile p).length ≤ l.length :=
  (List.dropWhile_sublist p).length_le

theorem takeWhile_append_of_all {p : Char → Bool} :
    ∀ {l1 : List Char} (l2 : List Char), (∀ c ∈ l1, p c = true) →
      (l1 ++ l2).takeWhile p = l1 ++ l2.takeWhile p := by
  intro l1
  induction l1 with
  | nil => intro l2 _; rfl
  | cons a l ih =>
    intro l2 h
    rw [List.cons_append, List.takeWhile_cons_of_pos (h a (by simp)),
      ih l2 (fun c hc => h c (by simp [hc])), List.cons_append]

theorem dropWhile_append_of_all {p : Char → Bool} :
    ∀ {l1 : List Char} (l2 : List Char), (∀ c ∈ l1, p c = true) →
      (l1 ++ l2).dropWhile p = l2.dropWhile p := by
  intro l1
  induction l1 with
  | nil => intro l2 _; rfl
  | cons a l ih =>
    intro l2 h
    rw [List.cons_append, List.dropWhile_cons_of_pos (h a (by simp)),
      ih l2 (fun c hc => h c (by simp [hc]))]

theorem space_not_word {c : Char} (h : isGoSpace c = true) :
    isGoWordChar c = false := by
  unfold isGoSpace at h
  simp only [Bool.or_eq_true, decide_eq_true_eq] at h
  rcases h with ((((h | h) | h) | h) | h) <;> subst h <;> decide

theorem word_not_space {c : Char} (h : isGoWordChar c = true) :
    isGoSpace c = false := by
  cases hs : isGoSpace c
  · rfl
  · rw [space_not_word hs] at h
    exact absurd h (by simp)

theorem ne_nil_of_isEmpty_ne {l : List Char} (h : ¬(l.isEmpty = true)) :
    l ≠ [] :=
  fun hl => h (by rw [hl]; rfl)

theorem matchFlag_sound {s s1 : List Char} (h : matchFlag s = some s1) :
    ∃ flag, (flag = "--module".toList ∨ flag = "-m".toList)
      ∧ s = flag ++ s1 := by
  unfold matchFlag at h
  split at h
  · next h1 =>
    rcases (isPrefixOf_iff_append _ s).mp h1 with ⟨t, ht⟩
    injection h with h2
    have hdrop : s.drop 8 = t := by
      rw [ht, show (8 : Nat) = ("--module".toList).length from rfl,
        List.drop_left]
    refine ⟨"--module".toList, Or.inl rfl, ?_⟩
    rw [← h2, hdrop]
    exact ht
  · split at h
    · next h2 =>
      rcases (isPrefixOf_iff_append _ s).mp h2 with ⟨t, ht⟩
      injection h with h3
      have hdrop : s.drop 2 = t := by
        rw [ht, show (2 : Nat) = ("-m".toList).length from rfl, List.drop_left]
      refine ⟨"-m".toList, Or.inr rfl, ?_⟩
      rw [← h3, hdrop]
      exact ht
    · exact absurd h (by simp)

theorem matchFlag_append {flag : List Char} (rest : List Char)
    (hflag : flag = "--module".toList ∨ flag = "-m".toList) :
    matchFlag (flag ++ rest) = some rest := by
  rcases hflag with rfl | rfl
  · unfold matchFlag
    rw [if_pos ((isPrefixOf_iff_append _ _).mpr ⟨rest, rfl⟩),
      show (8 : Nat) = ("--module".toList).length from rfl, List.drop_left]
  · have hno : ¬(List.isPrefixOf ("--module".toList) ("-m".toList ++ rest)
        = true) := by
      intro hcontra
      rcases (isPrefixOf_iff_append _ _).mp hcontra with ⟨t, ht⟩
      have ht' : ('-' :: 'm' :: rest) = ('-' :: '-' :: ("module".toList ++ t)) :=
        ht
      have h2 : ('m' :: rest) = ('-' :: ("module".toList ++ t)) := by
        injection ht'
      have hm : ('m' : Char) = '-' := by injection h2
      exact absurd hm (by decide)
    unfold matchFlag
    rw [if_neg hno, if_pos ((isPrefixOf_iff_append _ _).mpr ⟨rest, rfl⟩),
      show (2 : Nat) = ("-m".toList).length from rfl, List.drop_left]

theorem matchModuleAt_sound {s : List Char} {nm iss : String} {r : List Char}
    (h : matchModuleAt s = some (nm, iss, r)) :
    ∃ occ name issue, s = occ ++ r ∧ ModuleFlagShape occ name issue
      ∧ nm = name.asString ∧ iss = issue.asString ∧ r.length < s.length := by
  unfold matchModuleAt at h
  split at h
  · exact absurd h (by simp)
  · next s1 hf =>
    rcases matchFlag_sound hf with ⟨flag, hflag, hsflag⟩
    split at h
    · exact absurd h (by simp)
    · next hws =>
      split at h
      · exact absurd h (by simp)
      · next hnm0 =>
        split at h
        · next s3 hcolon =>
          split at h
          · exact absurd h (by simp)
          · next hdig =>
            injection h with h'
            rw [Prod.mk.injEq, Prod.mk.injEq] at h'
            obtain ⟨ha, hb, hc⟩ := h'
            refine ⟨flag ++ (s1.takeWhile isGoSpace)
                ++ ((s1.dropWhile isGoSpace).takeWhile isGoWordChar)
                ++ ':' :: (s3.takeWhile isGoDigit),
              (s1.dropWhile isGoSpace).takeWhile isGoWordChar,
              s3.takeWhile isGoDigit, ?_, ?_, ha.symm, hb.symm, ?_⟩
            · have e1 : s1 = s1.takeWhile isGoSpace ++ s1.dropWhile isGoSpace :=
                (List.takeWhile_append_dropWhile _ _).symm
              have e2 : s1.dropWhile isGoSpace =
                  ((s1.dropWhile isGoSpace).takeWhile isGoWordChar)
                    ++ (':' :: s3) := by
                conv_lhs => rw [← List.takeWhile_append_dropWhile isGoWordChar
                  (s1.dropWhile isGoSpace)]
                rw [hcolon]
              have e3 : s3 = s3.takeWhile isGoDigit ++ r := by
                rw [← hc]
                exact (List.takeWhile_append_dropWhile _ _).symm
              rw [hsflag]
              conv_lhs => rw [e1, e2, e3]
              simp [List.append_assoc]
            · exact ⟨flag, s1.takeWhile isGoSpace, hflag, rfl,
                ne_nil_of_isEmpty_ne hws,
                fun c hc => List.mem_takeWhile_imp hc,
                ne_nil_of_isEmpty_ne hnm0,
                fun c hc => List.mem_takeWhile_imp hc,
                ne_nil_of_isEmpty_ne hdig,
                fun c hc => List.mem_takeWhile_imp hc⟩
            · have l1 : r.length ≤ s3.length := by
                rw [← hc]; exact length_dropWhile_le' _ _
              have l2 : s3.length + 1 ≤ (s1.dropWhile isGoSpace).length := by
                have hle := length_dropWhile_le' isGoWordChar
                  (s1.dropWhile isGoSpace)
                rw [hcolon] at hle
                simpa using hle
              have l3 : (s1.dropWhile isGoSpace).length ≤ s1.length :=
                length_dropWhile_le' _ _
              have l4 : s.length = flag.length + s1.length := by
                rw [hsflag, List.length_append]
              have l5 : 2 ≤ flag.length := by
                rcases hflag with rfl | rfl <;> decide
              omega
        · exact absurd h (by simp)

theorem modulesOfLine_findModulesGo :
    ∀ (n : Nat) (s : List Char), s.length ≤ n →
      ModulesOfLine s ((findModulesGo n s).map
        (fun p => { Module := p.1, Issue := p.2 })) := by
  intro n
  induction n with
  | zero =>
    intro s hs
    have hnil : s = [] := List.eq_nil_of_length_eq_zero (Nat.le_zero.mp hs)
    subst hnil
    exact ModulesOfLine.nil
  | succ m ih =>
    intro s hs
    cases s with
    | nil => exact ModulesOfLine.nil
    | cons c rest =>
      cases hmm : matchModuleAt (c :: rest) with
      | none =>
        simp only [findModulesGo, hmm]
        exact ModulesOfLine.skip c
          (ih rest (by simpa using Nat.le_of_succ_le_succ hs))
      | some pr =>
        obtain ⟨nm, iss, r⟩ := pr
        rcases matchModuleAt_sound hmm with
          ⟨occ, name, issue, hseq, hshape, hnm, hiss, hlen⟩
        simp only [findModulesGo, hmm, List.map_cons]
        rw [hseq, hnm, hiss]
        refine ModulesOfLine.found hshape (ih r ?_)
        rw [hseq] at hs hlen
        omega

theorem matchModuleAt_eval {s s1 : List Char} (hf : matchFlag s = some s1)
    (h1 : ¬((s1.takeWhile isGoSpace).isEmpty = true))
    (h2 : ¬(((s1.dropWhile isGoSpace).takeWhile isGoWordChar).isEmpty = true))
    (s3 : List Char)
    (h3 : (s1.dropWhile isGoSpace).dropWhile isGoWordChar = ':' :: s3)
    (h4 : ¬((s3.takeWhile isGoDigit).isEmpty = true)) :
    matchModuleAt s =
      some (((s1.dropWhile isGoSpace).takeWhile isGoWordChar).asString,
        (s3.takeWhile isGoDigit).asString, s3.dropWhile isGoDigit) := by
  unfold matchModuleAt
  rw [hf]
  simp only [if_neg h1, if_neg h2, h3, if_neg h4]

theorem matchModuleAt_of_shape {occ name issue : List Char} (post : List Char)
    (h : ModuleFlagShape occ name issue) :
    ∃ r, matchModuleAt (occ ++ post) = some r := by
  rcases h with ⟨flag, ws, hflag, hocceq, hws0, hwsall, hname0, hnameall,
    hiss0, hissall⟩
  obtain ⟨w0, ws', rfl⟩ : ∃ w0 ws', ws = w0 :: ws' := by
    cases ws with
    | nil => exact absurd rfl hws0
    | cons a b => exact ⟨a, b, rfl⟩
  obtain ⟨n0, name', rfl⟩ : ∃ n0 name', name = n0 :: name' := by
    cases name with
    | nil => exact absurd rfl hname0
    | cons a b => exact ⟨a, b, rfl⟩
  obtain ⟨i0, iss', rfl⟩ : ∃ i0 iss', issue = i0 :: iss' := by
    cases issue with
    | nil => exact absurd rfl hiss0
    | cons a b => exact ⟨a, b, rfl⟩
  have hword_n0 : isGoWordChar n0 = true := hnameall n0 (by simp)
  have hns : ¬(isGoSpace n0 = true) := by simp [word_not_space hword_n0]
  have hcw : ¬(isGoWordChar ':' = true) := by decide
  have heq : occ ++ post = flag ++ ((w0 :: ws') ++ ((n0 :: name')
      ++ (':' :: ((i0 :: iss') ++ post)))) := by
    rw [hocceq]; simp [List.append_assoc]
  have hBtw : ((n0 :: name')
      ++ (':' :: ((i0 :: iss') ++ post))).takeWhile isGoSpace = [] :=
    List.takeWhile_cons_of_neg hns
  have hBdw : ((n0 :: name')
      ++ (':' :: ((i0 :: iss') ++ post))).dropWhile isGoSpace
      = (n0 :: name') ++ (':' :: ((i0 :: iss') ++ post)) :=
    List.dropWhile_cons_of_neg hns
  have htw : ((w0 :: ws') ++ ((n0 :: name')
      ++ (':' :: ((i0 :: iss') ++ post)))).takeWhile isGoSpace
      = w0 :: ws' := by
    rw [takeWhile_append_of_all _ hwsall, hBtw]
    simp
  have hdw : ((w0 :: ws') ++ ((n0 :: name')
      ++ (':' :: ((i0 :: iss') ++ post)))).dropWhile isGoSpace
      = (n0 :: name') ++ (':' :: ((i0 :: iss') ++ post)) := by
    rw [dropWhile_append_of_all _ hwsall, hBdw]
  have hCtw : (':' :: ((i0 :: iss') ++ post)).takeWhile isGoWordChar = [] :=
    List.takeWhile_cons_of_neg hcw
  have htw2 : ((n0 :: name')
      ++ (':' :: ((i0 :: iss') ++ post))).takeWhile isGoWordChar
      = n0 :: name' := by
    rw [takeWhile_append_of_all _ hnameall, hCtw]
    simp
  have hdw2 : ((n0 :: name')
      ++ (':' :: ((i0 :: iss') ++ post))).dropWhile isGoWordChar
      = ':' :: ((i0 :: iss') ++ post) := by
    rw [dropWhile_append_of_all _ hnameall]
    exact List.dropWhile_cons_of_neg hcw
  have htw3 : ((i0 :: iss') ++ post).takeWhile isGoDigit
      = (i0 :: iss') ++ post.takeWhile isGoDigit :=
    takeWhile_append_of_all _ hissall
  have hf : matchFlag (occ ++ post) =
      some ((w0 :: ws') ++ ((n0 :: name')
        ++ (':' :: ((i0 :: iss') ++ post)))) := by
    rw [heq]
    exact matchFlag_append _ hflag
  refine ⟨_, matchModuleAt_eval hf ?_ ?_ ((i0 :: iss') ++ post) ?_ ?_⟩
  · rw [htw]
    simp
  · rw [hdw, htw2]
    simp
  · rw [hdw]
    exact hdw2
  · rw [htw3]
    simp

theorem findModulesGo_ne_nil_of_shape {occ name issue : List Char}
    (hsh : ModuleFlagShape occ name issue) :
    ∀ (pre : List Char) (n : Nat) (post : List Char),
      (pre ++ occ ++ post).length ≤ n →
      findModulesGo n (pre ++ occ ++ post) ≠ [] := by
  intro pre
  induction pre with
  | nil =>
    intro n post hn
    rcases matchModuleAt_of_shape post hsh with ⟨r, hr⟩
    obtain ⟨c, s', hcs⟩ : ∃ c s', occ ++ post = c :: s' := by
      rcases hsh with ⟨flag, ws, hflag, hocceq, _⟩
      rcases hflag with rfl | rfl <;> (rw [hocceq]; exact ⟨_, _, rfl⟩)
    simp only [List.nil_append] at hn ⊢
    cases n with
    | zero => rw [hcs] at hn; simp at hn
    | succ m =>
      rw [hcs]
      rw [hcs] at hr
      obtain ⟨nm, iss, r2⟩ := r
      simp only [findModulesGo, hr]
      simp
  | cons c pre' ih =>
    intro n post hn
    simp only [List.cons_append] at hn ⊢
    cases n with
    | zero => simp at hn
    | succ m =>
      cases hmm : matchModuleAt (c :: (pre' ++ occ ++ post)) with
      | some r =>
        obtain ⟨nm, iss, r2⟩ := r
        simp only [findModulesGo, hmm]
        simp
      | none =>
        simp only [findModulesGo, hmm]
        exact ih m post (by simpa using Nat.le_of_succ_le_succ hn)

theorem parseGitHubComment_modules (comment : String) :
    (ParseGitHubComment comment).Modules =
      (findModulesGo (comment.toList.takeWhile notNewline).length
        (comment.toList.takeWhile notNewline)).map
          (fun p => { Module := p.1, Issue := p.2 }) := rfl

/-- Claim C8: for every input comment, the returned modules are exactly a
left-to-right decomposition of the first line into skipped characters and
non-overlapping occurrences of `--module <name>:<issue>` or
`-m <name>:<issue>` (name a run of word characters, issue a run of digits),
one `{Module, Issue}` entry per occurrence in order of appearance, with
non-matching text contributing nothing and causing no error (the
`ModulesOfLine` judgment); moreover whenever the first line does contain an
occurrence of the shape, at least one entry is produced; and the spec's
example parses to `Modules = [{foo,123},{bar,456}]`,
`MessageOverride = "extra note"`. -/
theorem claim_C8 :
    (ParseGitHubComment ("evg merge --module foo:123 -m bar:456\nextra note") =
      { Modules := [{ Module := "foo", Issue := "123" },
                    { Module := "bar", Issue := "456" }],
        MessageOverride := "extra note" })
    ∧ (∀ comment : String,
        ModulesOfLine (comment.toList.takeWhile notNewline)
          ((ParseGitHubComment comment).Modules))
    ∧ (∀ (comment : String) (pre occ post name issue : List Char),
        comment.toList.takeWhile notNewline = pre ++ occ ++ post →
        ModuleFlagShape occ name issue →
        (ParseGitHubComment comment).Modules ≠ []) := by
  refine ⟨by decide, ?_, ?_⟩
  · intro comment
    rw [parseGitHubComment_modules]
    exact modulesOfLine_findModulesGo _ _ le_rfl
  · intro comment pre occ post name issue hline hsh
    rw [parseGitHubComment_modules, hline]
    intro hcontra
    exact findModulesGo_ne_nil_of_shape hsh pre _ post le_rfl
      (List.map_eq_nil_iff.mp hcontra)

/-- Witness for C8's universally quantified parts at a concrete comment
containing one occurrence of the short-flag shape. -/
theorem claim_C8_witness : (ParseGitHubComment ("-m foo:123")).Modules ≠ [] :=
  claim_C8.2.2 ("-m foo:123") [] ("-m foo:123".toList) [] ("foo".toList)
    ("123".toList) (by decide)
    ⟨"-m".toList, [' '], Or.inr rfl, by decide, by decide, by decide,
      by decide, by decide, by decide, by decide⟩

/-! ## C6: the comment trigger -/

/-- Claim C6: `TriggersCommitQueue` returns true iff the action is exactly
`"created"` and the comment body contains the configured trigger phrase as a
case-sensitive substring; any other action (e.g. `"deleted"`) yields false
even when the phrase is present. -/
theorem claim_C6 (trigger action comment : String) :
    TriggersCommitQueue trigger action comment = true ↔
      (action = "created" ∧
        ∃ pre post, comment.toList = pre ++ trigger.toList ++ post) := by
  unfold TriggersCommitQueue
  rw [Bool.and_eq_true, beq_iff_eq, hasSubstr_iff_append]

/-- Witness for C6 at the spec's example inputs. -/
theorem claim_C6_witness :
    TriggersCommitQueue ("please merge this") ("created") ("please merge this")
      = true :=
  (claim_C6 ("please merge this") ("created") ("please merge this")).mpr
    ⟨rfl, [], [], by decide⟩

/-! ## C1: processing mutual exclusion -/

/-- Claim C1, counterexample: the claim predicts that `SetProcessing(b)`
errors whenever the current value already equals `b`, so a `SetProcessing
(false)` on a queue whose `Processing` is already false would have to fail;
but per `TestProcessing` (commit_queue_test.go:183-184) a second consecutive
false-call succeeds, as it does in the model. -/
theorem claim_C1_counterexample :
    ¬ ((SetProcessing { ProjectID := "mci", Queue := [], Processing := false }
          false).isOk = false) := by decide

/-- Claim C1 (amended): `SetProcessing(true)` succeeds exactly when
`Processing` is currently false and returns an error (producing no updated
document) when it is already true, while `SetProcessing(false)` always
succeeds; a successful call sets `Processing` to the requested value and
changes nothing else, and a successful `SetProcessing(true)` leaves a state
in which a second `SetProcessing(true)` fails — so between any two successful
false-transitions at most one true-transition succeeds. -/
theorem claim_C1_amended (cq : CommitQueue) (b : Bool) :
    ((SetProcessing cq true).isOk = true ↔ cq.Processing = false)
    ∧ ((SetProcessing cq false).isOk = true)
    ∧ (∀ cq', SetProcessing cq b = Except.ok cq' →
        cq' = { cq with Processing := b })
    ∧ (∀ e, SetProcessing cq b = Except.error e →
        (b = true ∧ cq.Processing = true))
    ∧ (∀ cq1, SetProcessing cq true = Except.ok cq1 →
        (SetProcessing cq1 true).isOk = false) := by
  refine ⟨?_, ?_, ?_, ?_, ?_⟩
  · cases hp : cq.Processing <;>
      simp [SetProcessing, hp, Except.isOk, Except.toBool]
  · simp [SetProcessing, Except.isOk, Except.toBool]
  · intro cq' hok
    unfold SetProcessing at hok
    split at hok
    · exact absurd hok (by simp)
    · injection hok with h
      exact h.symm
  · intro e herr
    unfold SetProcessing at herr
    split at herr
    · next hcond =>
      exact ⟨(Bool.and_eq_true _ _ |>.mp hcond).1,
        (Bool.and_eq_true _ _ |>.mp hcond).2⟩
    · exact absurd herr (by simp)
  · intro cq1 hok
    unfold SetProcessing at hok
    split at hok
    · exact absurd hok (by simp)
    · injection hok with h
      rw [← h]
      simp [SetProcessing, Except.isOk, Except.toBool]

/-- Witness for C1: a first `SetProcessing(true)` from a non-processing state
succeeds, a second one on the resulting state fails, and a `SetProcessing
(false)` on an already-false state succeeds. -/
theorem claim_C1_witness :
    (SetProcessing ⟨"mci", [], false⟩ true).isOk = true
    ∧ (SetProcessing ⟨"mci", [], true⟩ true).isOk = false
    ∧ (SetProcessing ⟨"mci", [], false⟩ false).isOk = true :=
  ⟨(claim_C1_amended ⟨"mci", [], false⟩ true).1.mpr rfl,
   (claim_C1_amended ⟨"mci", [], false⟩ true).2.2.2.2 ⟨"mci", [], true⟩ rfl,
   (claim_C1_amended ⟨"mci", [], false⟩ false).2.1⟩

/-! ## C2: front-insert semantics -/

/-- Claim C2: `EnqueueAtFront` inserts the stamped item at index 1 when the
queue is non-empty — the existing head stays at index 0 and every other item
shifts back one position — and at index 0 when the queue is empty, returning
the resulting index. -/
theorem claim_C2 (now : Nat) (cq : CommitQueue) (item : CommitQueueItem) :
    (cq.Queue = [] →
      EnqueueAtFront now cq item =
        ({ cq with Queue := [{ item with EnqueueTime := now }] }, 0))
    ∧ ∀ h t, cq.Queue = h :: t →
        EnqueueAtFront now cq item =
          ({ cq with Queue := h :: { item with EnqueueTime := now } :: t }, 1) := by
  constructor
  · intro hq; simp [EnqueueAtFront, hq]
  · intro h t hq; simp [EnqueueAtFront, hq]

/-- Witness for C2, the spec's example: after enqueuing A, B, C,
`EnqueueAtFront(D)` yields queue order `[A, D, B, C]` and returns
position 1. -/
theorem claim_C2_witness :
    ((EnqueueAtFront 5 ⟨"p", [itm ("A"), itm ("B"), itm ("C")], false⟩
        (itm ("D"))).1.Queue).map (fun i => i.Issue) = ["A", "D", "B", "C"]
    ∧ (EnqueueAtFront 5 ⟨"p", [itm ("A"), itm ("B"), itm ("C")], false⟩
        (itm ("D"))).2 = 1 := by
  rw [(claim_C2 5 ⟨"p", [itm ("A"), itm ("B"), itm ("C")], false⟩ (itm ("D"))).2
    (itm ("A")) [itm ("B"), itm ("C")] rfl]
  exact ⟨rfl, rfl⟩

/-! ## C3: removing the head resets processing -/

/-- Claim C3: when the head item's issue is removed the call reports
`found = true`, the remaining items keep their relative order, and
`Processing` is reset to false (in particular when it was true); removing by
an issue that is not the head's never changes `Processing`. -/
theorem claim_C3 (cq : CommitQueue) (issue : String) :
    (∀ h t, cq.Queue = h :: t → h.Issue = issue →
      Remove cq issue = ({ cq with Queue := t, Processing := false }, true))
    ∧ (∀ h t, cq.Queue = h :: t → h.Issue ≠ issue →
      (Remove cq issue).1.Processing = cq.Processing) := by
  constructor
  · intro h t hq he
    have hb : (h.Issue == issue) = true := by simp [he]
    simp [Remove, hq, findIssueIdx, hb]
  · intro h t hq hne
    have hb : (h.Issue == issue) = false := by simp [hne]
    unfold Remove
    rw [hq]
    simp only [findIssueIdx, hb, Bool.false_eq_true, if_false]
    cases hf : findIssueIdx issue t with
    | none => simp
    | some m => simp

/-- Witness for C3, mirroring `TestRemoveOne`: with queue
`[c123, d234, e345]` and `Processing = true`, removing `c123` succeeds,
leaves `[d234, e345]` and resets `Processing`; removing the non-head issue
`e345` keeps `Processing = true`. -/
theorem claim_C3_witness :
    Remove ⟨"mci", [itm ("c123"), itm ("d234"), itm ("e345")], true⟩ "c123" =
      (⟨"mci", [itm ("d234"), itm ("e345")], false⟩, true)
    ∧ (Remove ⟨"mci", [itm ("c123"), itm ("d234"), itm ("e345")], true⟩
        "e345").1.Processing = true :=
  ⟨(claim_C3 ⟨"mci", [itm ("c123"), itm ("d234"), itm ("e345")], true⟩ "c123").1
      (itm ("c123")) [itm ("d234"), itm ("e345")] rfl rfl,
   (claim_C3 ⟨"mci", [itm ("c123"), itm ("d234"), itm ("e345")], true⟩ "e345").2
      (itm ("c123")) [itm ("d234"), itm ("e345")] rfl (by decide)⟩

/-! ## C4: idempotent remove -/

theorem findIssueIdx_eq_none_of_countP_zero (x : String) :
    ∀ l : List CommitQueueItem, l.countP (fun i => i.Issue == x) = 0 →
      findIssueIdx x l = none := by
  intro l
  induction l with
  | nil => intro _; rfl
  | cons i rest ih =>
    intro h
    rw [List.countP_cons] at h
    by_cases hb : (i.Issue == x) = true
    · simp [hb] at h
    · have hb' : (i.Issue == x) = false := by simpa using hb
      have h' : rest.countP (fun i => i.Issue == x) = 0 := by simpa [hb'] using h
      simp [findIssueIdx, hb', ih h']

theorem findIssueIdx_of_countP_one (x : String) :
    ∀ l : List CommitQueueItem, l.countP (fun i => i.Issue == x) = 1 →
      ∃ n, findIssueIdx x l = some n
        ∧ (l.eraseIdx n).countP (fun i => i.Issue == x) = 0 := by
  intro l
  induction l with
  | nil => intro h; simp [List.countP_nil] at h
  | cons i rest ih =>
    intro h
    rw [List.countP_cons] at h
    by_cases hb : (i.Issue == x) = true
    · refine ⟨0, by simp [findIssueIdx, hb], ?_⟩
      have h' : rest.countP (fun i => i.Issue == x) = 0 := by
        simpa [hb] using h
      simpa [List.eraseIdx_cons_zero] using h'
    · have hb' : (i.Issue == x) = false := by simpa using hb
      have h' : rest.countP (fun i => i.Issue == x) = 1 := by simpa [hb'] using h
      rcases ih h' with ⟨n, h1, h2⟩
      refine ⟨n + 1, by simp [findIssueIdx, hb', h1], ?_⟩
      simp [List.eraseIdx_cons_succ, List.countP_cons, hb', h2]

/-- Claim C4: `Remove` on an issue absent from the queue leaves the queue
unchanged and reports `found = false` (there is no error path for absence);
for an issue enqueued exactly once, two consecutive `Remove` calls report
`found = true` then `found = false`. -/
theorem claim_C4 (cq : CommitQueue) (x : String) :
    ((∀ i ∈ cq.Queue, i.Issue ≠ x) → Remove cq x = (cq, false))
    ∧ (cq.Queue.countP (fun i => i.Issue == x) = 1 →
        (Remove cq x).2 = true ∧ (Remove (Remove cq x).1 x).2 = false) := by
  constructor
  · intro h
    have h0 : cq.Queue.countP (fun i => i.Issue == x) = 0 :=
      List.countP_eq_zero.mpr (fun i hi => by simpa using h i hi)
    simp [Remove, findIssueIdx_eq_none_of_countP_zero x cq.Queue h0]
  · intro h
    rcases findIssueIdx_of_countP_one x cq.Queue h with ⟨n, h1, h2⟩
    have hn2 := findIssueIdx_eq_none_of_countP_zero x (cq.Queue.eraseIdx n) h2
    exact ⟨by simp [Remove, h1], by simp [Remove, h1, hn2]⟩

/-- Witness for C4, mirroring `TestRemoveOne`: removing `not_here` from
`[c123, d234, e345]` is a no-op reporting false; removing `d234` twice
reports true then false. -/
theorem claim_C4_witness :
    Remove ⟨"mci", [itm ("c123"), itm ("d234"), itm ("e345")], false⟩ "not_here" =
      (⟨"mci", [itm ("c123"), itm ("d234"), itm ("e345")], false⟩, false)
    ∧ ((Remove ⟨"mci", [itm ("c123"), itm ("d234"), itm ("e345")], false⟩ "d234").2
        = true
      ∧ (Remove (Remove ⟨"mci", [itm ("c123"), itm ("d234"), itm ("e345")], false⟩
          "d234").1 "d234").2 = false) :=
  ⟨(claim_C4 ⟨"mci", [itm ("c123"), itm ("d234"), itm ("e345")], false⟩
      "not_here").1 (by decide),
   (claim_C4 ⟨"mci", [itm ("c123"), itm ("d234"), itm ("e345")], false⟩
      "d234").2 (by decide)⟩

/-! ## C5: eviction compensations on the CLI path -/

/-- Claim C5, counterexample: with no corresponding build/version
(`versionExists = false`), the claim says the dequeue-subscriber for the item
is cleared, but the code leaves the subscription store untouched — exactly
what `TestPreventMergeForItemCLI` asserts (`assert.NotEmpty(t, subscriptions)`
after the `versionExists = false` call). -/
theorem claim_C5_counterexample :
    ¬ ((preventMergeForItem CLIPatchType false (itm ("abcdef012345"))
          stCLI).subscriptions = []) := by decide

/-- Claim C5 (amended): evicting a CLI-patch item with no corresponding
build/version changes nothing — the dequeue-subscriber stays in place and the
merge task's priority is untouched; when a version and its merge task do
exist, the merge task's priority is set to `-1`, the task's entry in its
containing build is deactivated, and every dequeue-subscription for the item
is cleared. -/
theorem claim_C5_amended (item : CommitQueueItem) (st : MergeState) :
    (preventMergeForItem CLIPatchType false item st = st)
    ∧ (∀ t, findMergeTaskForVersion st item.Issue = some t →
        (({ t with Priority := -1 })
            ∈ (preventMergeForItem CLIPatchType true item st).tasks
        ∧ (∀ s ∈ (preventMergeForItem CLIPatchType true item st).subscriptions,
            ¬(s.ResourceID = item.Issue
              ∧ s.SubscriberType = CommitQueueDequeueSubscriberType))
        ∧ (∀ b ∈ st.builds, b.Id = t.BuildId →
            ∃ b' ∈ (preventMergeForItem CLIPatchType true item st).builds,
              b'.Id = b.Id
                ∧ ∀ c ∈ b'.Tasks, c.Id = t.Id → c.Activated = false))) := by
  have hpr : (CLIPatchType == PRPatchType) = false := by decide
  have hcli : (CLIPatchType == CLIPatchType) = true := by decide
  constructor
  · simp [preventMergeForItem, hpr, hcli]
  · intro t ht
    have hstep : preventMergeForItem CLIPatchType true item st =
        clearVersionPatchSubscriber item.Issue CommitQueueDequeueSubscriberType
          (setTaskPriorityBlocked t.Id t.BuildId st) := by
      simp [preventMergeForItem, hpr, hcli, ht]
    rw [hstep]
    refine ⟨?_, ?_, ?_⟩
    · have hmem : t ∈ st.tasks := List.mem_of_find?_eq_some ht
      simp only [clearVersionPatchSubscriber, setTaskPriorityBlocked]
      exact List.mem_map.mpr ⟨t, hmem, by simp⟩
    · intro s hs
      simp only [clearVersionPatchSubscriber, setTaskPriorityBlocked] at hs
      have hkeep := (List.mem_filter.mp hs).2
      rintro ⟨h1, h2⟩
      rw [h1, h2] at hkeep
      simp at hkeep
    · intro b hb hbid
      simp only [clearVersionPatchSubscriber, setTaskPriorityBlocked]
      have hbid' : (b.Id == t.BuildId) = true := by simp [hbid]
      refine ⟨{ b with Tasks := b.Tasks.map (fun c => if c.Id == t.Id then { c with Activated := false } else c) }, List.mem_map.mpr ⟨b, hb, by simp [hbid']⟩, rfl, ?_⟩
      intro c hc hcid
      rcases List.mem_map.mp hc with ⟨c0, hc0, hceq⟩
      by_cases h0 : (c0.Id == t.Id) = true
      · rw [← hceq]; simp [h0]
      · rw [← hceq] at hcid
        simp [h0] at hcid
        exact absurd hcid (by simpa using h0)

/-- Witness for C5, mirroring `TestPreventMergeForItemCLI`: on the test's
state, the no-version call is a no-op, and the with-version call blocks the
merge task `t1` and drops the dequeue subscription. -/
theorem claim_C5_witness :
    preventMergeForItem CLIPatchType false (itm ("abcdef012345")) stCLI = stCLI
    ∧ ({ tMerge with Priority := -1 }
        ∈ (preventMergeForItem CLIPatchType true (itm ("abcdef012345"))
            stCLI).tasks)
    ∧ ({ ResourceID := "abcdef012345",
         SubscriberType := CommitQueueDequeueSubscriberType : Subscription }
        ∉ (preventMergeForItem CLIPatchType true (itm ("abcdef012345"))
            stCLI).subscriptions) :=
  ⟨(claim_C5_amended (itm ("abcdef012345")) stCLI).1,
   ((claim_C5_amended (itm ("abcdef012345")) stCLI).2 tMerge rfl).1,
   fun hmem =>
     (((claim_C5_amended (itm ("abcdef012345")) stCLI).2 tMerge rfl).2.1 _ hmem)
       ⟨rfl, rfl⟩⟩

/-! ## C9: bulk clear accounting -/

/-- Claim C9: `ClearAllCommitQueues` empties every queue document (leaving the
other fields alone) and returns the number of queues that were non-empty
before the call; already-empty queues are cleared to no effect and are not
counted. -/
theorem claim_C9 (queues : List CommitQueue) :
    (ClearAllCommitQueues queues).1 =
      queues.map (fun q => { q with Queue := [] })
    ∧ (ClearAllCommitQueues queues).2 =
      queues.countP (fun q => !q.Queue.isEmpty) := by
  induction queues with
  | nil => exact ⟨rfl, rfl⟩
  | cons q rest ih =>
    unfold ClearAllCommitQueues
    by_cases h : q.Queue.isEmpty = true
    · have hq : q.Queue = [] := List.isEmpty_iff.mp h
      have hqq : { q with Queue := ([] : List CommitQueueItem) } = q := by
        obtain ⟨pid, Q, proc⟩ := q
        simp only at hq
        rw [hq]
      constructor
      · simp [h, ih.1, hqq]
      · simp [h, ih.2, List.countP_cons]
    · constructor
      · simp [h, ih.1]
      · simp [h, ih.2, List.countP_cons]

/-! ## C10: version lookup for queue items -/

/-- Claim C10: for `PRPatchType` items, `VersionExistsForCommitQueueItem`
returns `(false, nil)` without consulting the version store (the result holds
for every store) whenever the queue is empty or the issue is not the head
item's issue; when the issue is at the head it looks up the head's `Version`,
and for every non-PR patch type it looks up the issue string itself,
returning `true` exactly when the version document exists and propagating
store errors. -/
theorem claim_C10 (findVersion : String → Except String (Option Version))
    (cq : CommitQueue) (issue : String) :
    (cq.Queue = [] →
      VersionExistsForCommitQueueItem findVersion cq issue PRPatchType =
        Except.ok false)
    ∧ (∀ h t, cq.Queue = h :: t → h.Issue ≠ issue →
      VersionExistsForCommitQueueItem findVersion cq issue PRPatchType =
        Except.ok false)
    ∧ (∀ h t, cq.Queue = h :: t → h.Issue = issue →
        ((∀ v, findVersion h.Version = Except.ok v →
            VersionExistsForCommitQueueItem findVersion cq issue PRPatchType =
              Except.ok v.isSome)
          ∧ (∀ e, findVersion h.Version = Except.error e →
            VersionExistsForCommitQueueItem findVersion cq issue PRPatchType =
              Except.error e)))
    ∧ (∀ patchType, patchType ≠ PRPatchType →
        ((∀ v, findVersion issue = Except.ok v →
            VersionExistsForCommitQueueItem findVersion cq issue patchType =
              Except.ok v.isSome)
          ∧ (∀ e, findVersion issue = Except.error e →
            VersionExistsForCommitQueueItem findVersion cq issue patchType =
              Except.error e))) := by
  refine ⟨?_, ?_, ?_, ?_⟩
  · intro hq
    simp [VersionExistsForCommitQueueItem, Next, hq]
  · intro h t hq hne
    have hb : (h.Issue == issue) = false := by simp [hne]
    simp [VersionExistsForCommitQueueItem, Next, hq, hb]
  · intro h t hq he
    have hb : (h.Issue == issue) = true := by simp [he]
    constructor
    · intro v hv
      simp [VersionExistsForCommitQueueItem, Next, hq, hb, hv]
    · intro e hv
      simp [VersionExistsForCommitQueueItem, Next, hq, hb, hv]
  · intro patchType hpt
    have hb : (patchType == PRPatchType) = false := by simp [hpt]
    constructor
    · intro v hv
      simp [VersionExistsForCommitQueueItem, hb, hv]
    · intro e hv
      simp [VersionExistsForCommitQueueItem, hb, hv]

/-- Witness for C10 on concrete stores and queues: empty queue and non-head
issues answer `(false, nil)` for the PR path; the PR head and the CLI path
consult the store. -/
theorem claim_C10_witness :
    VersionExistsForCommitQueueItem fv0 ⟨"mci", [], false⟩ "c123" PRPatchType
      = Except.ok false
    ∧ VersionExistsForCommitQueueItem fv0 cqPR ("d234") PRPatchType
      = Except.ok false
    ∧ VersionExistsForCommitQueueItem fv0 cqPR ("c123") PRPatchType
      = Except.ok true
    ∧ VersionExistsForCommitQueueItem fv0 ⟨"mci", [], false⟩ "v1" CLIPatchType
      = Except.ok true :=
  ⟨(claim_C10 fv0 ⟨"mci", [], false⟩ "c123").1 rfl,
   (claim_C10 fv0 cqPR ("d234")).2.1 ({ itm ("c123") with Version := "v1" }) []
     rfl (by decide),
   ((claim_C10 fv0 cqPR ("c123")).2.2.1 ({ itm ("c123") with Version := "v1" }) []
     rfl rfl).1 (some { Id := "v1" }) rfl,
   ((claim_C10 fv0 ⟨"mci", [], false⟩ "v1").2.2.2 CLIPatchType (by decide)).1
     (some { Id := "v1" }) rfl⟩

end Evergreen
